import Mathlib

/-!
Verification of the asynchronous order-event boundary of the
contract-testing demo repository (checkout producer / accounting consumer).

The development shallowly embeds, from the Go sources:
  * the protobuf wire codec used for `OrderResult` (`proto.Marshal` /
    `proto.Unmarshal` specialised to the `OrderResult` schema declared in
    `pb/demo.proto` and excerpted in the accounting README);
  * the structured (JSON) bridge of `checkout_message_provider_test.go`
    (`convertOrderResultToConsumerFormat`, `fixProtobufSerializationIssues`,
    `parseIntFromString`);
  * the Kafka publisher adapter control flow of
    `adapters/kafka_order_event_publisher.go` (`PublishOrderCompleted`,
    `waitForAcknowledgment`) and the no-op adapter;
  * the consumer dispatcher loop of the accounting service (modelled from
    the spec, its implementation is not part of the given sources).

Go strings are immutable byte sequences, so string-valued fields are
modelled as `List Nat` with each element a byte value.
-/

namespace ContractDemo

/-! ### Protobuf base-128 varints

`writeVarint` renders a natural number in the little-endian base-128
varint format used by the protobuf wire encoding; `readVarint` parses one
varint from the front of a byte list.  The writer uses an explicit fuel
argument (the number itself suffices) so that it is structurally
recursive and reduces definitionally. -/

def writeVarintAux : Nat → Nat → List Nat
  | 0, n => [n % 128]
  | fuel + 1, n => if n < 128 then [n] else (n % 128 + 128) :: writeVarintAux fuel (n / 128)

def writeVarint (n : Nat) : List Nat :=
  writeVarintAux n n

def readVarint : List Nat → Option (Nat × List Nat)
  | [] => none
  | b :: rest =>
    if b < 128 then some (b, rest)
    else
      match readVarint rest with
      | some (v, rest2) => some (b % 128 + v * 128, rest2)
      | none => none

theorem writeVarintAux_ne_nil (fuel n : Nat) : writeVarintAux fuel n ≠ [] := by
  cases fuel with
  | zero => simp [writeVarintAux]
  | succ f =>
    simp only [writeVarintAux]
    split <;> simp

theorem writeVarint_ne_nil (n : Nat) : writeVarint n ≠ [] :=
  writeVarintAux_ne_nil n n

/-- Reading back a varint written with enough fuel returns the original
number and leaves trailing bytes untouched. -/
theorem readVarint_writeVarintAux (fuel : Nat) :
    ∀ n, n ≤ fuel → ∀ rest, readVarint (writeVarintAux fuel n ++ rest) = some (n, rest) := by
  induction fuel with
  | zero =>
    intro n hn rest
    interval_cases n
    simp [writeVarintAux, readVarint]
  | succ f ih =>
    intro n hn rest
    by_cases h : n < 128
    · simp [writeVarintAux, readVarint, h]
    · have hdiv : n / 128 ≤ f := by
        have := Nat.div_le_self n 128
        have h2 : n / 128 < n := Nat.div_lt_self (by omega) (by omega)
        omega
      simp only [writeVarintAux, if_neg h, List.cons_append, readVarint]
      have hge : ¬ (n % 128 + 128 < 128) := by omega
      rw [if_neg hge]
      rw [ih (n / 128) hdiv rest]
      show some ((n % 128 + 128) % 128 + n / 128 * 128, rest) = some (n, rest)
      have hmod : (n % 128 + 128) % 128 = n % 128 := by omega
      have hsum : n % 128 + n / 128 * 128 = n := by
        have := Nat.mod_add_div n 128
        omega
      rw [hmod, hsum]

theorem readVarint_writeVarint (n : Nat) (rest : List Nat) :
    readVarint (writeVarint n ++ rest) = some (n, rest) :=
  readVarint_writeVarintAux n n (Nat.le_refl n) rest

/-- Successful varint reads strictly consume input. -/
theorem readVarint_length {l rest : List Nat} {v : Nat}
    (h : readVarint l = some (v, rest)) : rest.length < l.length := by
  induction l generalizing v rest with
  | nil => simp [readVarint] at h
  | cons b t ih =>
    simp only [readVarint] at h
    by_cases hb : b < 128
    · rw [if_pos hb] at h
      cases h
      simp
    · rw [if_neg hb] at h
      cases hv : readVarint t with
      | none => rw [hv] at h; cases h
      | some p =>
        rw [hv] at h
        cases p with
        | mk v2 r2 =>
          cases h
          have := ih hv
          simp
          omega

/-! ### Wire-format field records

A protobuf message body is a sequence of tagged fields.  The schema in
`pb/demo.proto` only uses wire type 0 (varint) and wire type 2
(length-delimited payload), so those are the shapes modelled.  The tag
byte sequence encodes `fieldNumber * 8 + wireType`. -/

inductive FieldVal where
  | vint (v : Nat)
  | blob (payload : List Nat)
deriving DecidableEq

def encodeField : Nat × FieldVal → List Nat
  | (num, FieldVal.vint v) => writeVarint (num * 8) ++ writeVarint v
  | (num, FieldVal.blob payload) =>
      writeVarint (num * 8 + 2) ++ writeVarint payload.length ++ payload

def encodeFields : List (Nat × FieldVal) → List Nat
  | [] => []
  | f :: fs => encodeField f ++ encodeFields fs

/-- Parse the field records of a message body.  Fuel bounds the number of
iterations; every iteration consumes at least one byte, so the byte count
is sufficient fuel. -/
def parseFieldsAux : Nat → List Nat → Option (List (Nat × FieldVal))
  | _, [] => some []
  | 0, _ :: _ => none
  | fuel + 1, b :: t =>
    match readVarint (b :: t) with
    | none => none
    | some (tag, rest) =>
      if tag % 8 = 0 then
        match readVarint rest with
        | none => none
        | some (v, rest2) =>
          (parseFieldsAux fuel rest2).map (fun fs => (tag / 8, FieldVal.vint v) :: fs)
      else if tag % 8 = 2 then
        match readVarint rest with
        | none => none
        | some (len, rest2) =>
          if len ≤ rest2.length then
            (parseFieldsAux fuel (rest2.drop len)).map
              (fun fs => (tag / 8, FieldVal.blob (rest2.take len)) :: fs)
          else none
      else none

def parseFields (bytes : List Nat) : Option (List (Nat × FieldVal)) :=
  parseFieldsAux bytes.length bytes

theorem parseFieldsAux_nil (fuel : Nat) : parseFieldsAux fuel [] = some [] := by
  cases fuel <;> rfl

/-- Generic wire round trip: parsing an encoded field list (with enough
fuel) recovers exactly the fields. -/
theorem parseFieldsAux_encodeFields (fs : List (Nat × FieldVal)) :
    ∀ fuel, (encodeFields fs).length ≤ fuel →
      parseFieldsAux fuel (encodeFields fs) = some fs := by
  induction fs with
  | nil =>
    intro fuel _
    exact parseFieldsAux_nil fuel
  | cons f fs ih =>
    intro fuel hfuel
    cases f with
    | mk num fv =>
      cases fv with
      | vint v =>
        have henc : encodeFields ((num, FieldVal.vint v) :: fs) =
            writeVarint (num * 8) ++ (writeVarint v ++ encodeFields fs) := by
          simp [encodeFields, encodeField]
        rw [henc] at hfuel ⊢
        have h1 : (writeVarint (num * 8)).length ≥ 1 :=
          List.length_pos.mpr (writeVarint_ne_nil _)
        have h2 : (writeVarint v).length ≥ 1 :=
          List.length_pos.mpr (writeVarint_ne_nil _)
        have hlen : (writeVarint (num * 8) ++ (writeVarint v ++ encodeFields fs)).length =
            (writeVarint (num * 8)).length + (writeVarint v).length +
              (encodeFields fs).length := by
          simp
          omega
        obtain ⟨g, rfl⟩ : ∃ g, fuel = g + 1 := by
          refine ⟨fuel - 1, ?_⟩
          omega
        cases hby : writeVarint (num * 8) ++ (writeVarint v ++ encodeFields fs) with
        | nil =>
          exact absurd (List.append_eq_nil.mp hby).1 (writeVarint_ne_nil _)
        | cons b t =>
          rw [← hby]
          have hstep : parseFieldsAux (g + 1) (b :: t) =
              match readVarint (b :: t) with
              | none => none
              | some (tag, rest) =>
                if tag % 8 = 0 then
                  match readVarint rest with
                  | none => none
                  | some (v2, rest2) =>
                    (parseFieldsAux g rest2).map
                      (fun l => (tag / 8, FieldVal.vint v2) :: l)
                else if tag % 8 = 2 then
                  match readVarint rest with
                  | none => none
                  | some (len, rest2) =>
                    if len ≤ rest2.length then
                      (parseFieldsAux g (rest2.drop len)).map
                        (fun l => (tag / 8, FieldVal.blob (rest2.take len)) :: l)
                    else none
                else none := rfl
          rw [hby, hstep, ← hby]
          simp only [readVarint_writeVarint]
          have hm : num * 8 % 8 = 0 := by omega
          have hd : num * 8 / 8 = num := by omega
          rw [if_pos hm, hd]
          have hrec : parseFieldsAux g (encodeFields fs) = some fs := by
            apply ih
            omega
          rw [hrec]
          rfl
      | blob payload =>
        have henc : encodeFields ((num, FieldVal.blob payload) :: fs) =
            writeVarint (num * 8 + 2) ++
              (writeVarint payload.length ++ (payload ++ encodeFields fs)) := by
          simp [encodeFields, encodeField]
        rw [henc] at hfuel ⊢
        have h1 : (writeVarint (num * 8 + 2)).length ≥ 1 :=
          List.length_pos.mpr (writeVarint_ne_nil _)
        have h2 : (writeVarint payload.length).length ≥ 1 :=
          List.length_pos.mpr (writeVarint_ne_nil _)
        obtain ⟨g, rfl⟩ : ∃ g, fuel = g + 1 := by
          refine ⟨fuel - 1, ?_⟩
          have := List.length_append (writeVarint (num * 8 + 2))
            (writeVarint payload.length ++ (payload ++ encodeFields fs))
          omega
        cases hby : writeVarint (num * 8 + 2) ++
            (writeVarint payload.length ++ (payload ++ encodeFields fs)) with
        | nil =>
          exact absurd (List.append_eq_nil.mp hby).1 (writeVarint_ne_nil _)
        | cons b t =>
          rw [← hby]
          have hstep : parseFieldsAux (g + 1) (b :: t) =
              match readVarint (b :: t) with
              | none => none
              | some (tag, rest) =>
                if tag % 8 = 0 then
                  match readVarint rest with
                  | none => none
                  | some (v2, rest2) =>
                    (parseFieldsAux g rest2).map
                      (fun l => (tag / 8, FieldVal.vint v2) :: l)
                else if tag % 8 = 2 then
                  match readVarint rest with
                  | none => none
                  | some (len, rest2) =>
                    if len ≤ rest2.length then
                      (parseFieldsAux g (rest2.drop len)).map
                        (fun l => (tag / 8, FieldVal.blob (rest2.take len)) :: l)
                    else none
                else none := rfl
          rw [hby, hstep, ← hby]
          simp only [readVarint_writeVarint]
          have hm0 : ¬ ((num * 8 + 2) % 8 = 0) := by omega
          have hm2 : (num * 8 + 2) % 8 = 2 := by omega
          have hd : (num * 8 + 2) / 8 = num := by omega
          rw [if_neg hm0, if_pos hm2, hd]
          have htk : (payload ++ encodeFields fs).take payload.length = payload :=
            List.take_left payload (encodeFields fs)
          have hdr : (payload ++ encodeFields fs).drop payload.length = encodeFields fs :=
            List.drop_left payload (encodeFields fs)
          have hle : payload.length ≤ (payload ++ encodeFields fs).length := by
            simp
          rw [if_pos hle, htk, hdr]
          have hrec : parseFieldsAux g (encodeFields fs) = some fs := by
            apply ih
            simp at hfuel
            omega
          rw [hrec]
          rfl

theorem parseFields_encodeFields (fs : List (Nat × FieldVal)) :
    parseFields (encodeFields fs) = some fs :=
  parseFieldsAux_encodeFields fs (encodeFields fs).length (Nat.le_refl _)

/-! ### Two's-complement varint views of `int64` / `int32`

Protobuf encodes `int64` and `int32` values as the varint of their 64-bit
two's complement; decoding truncates to the field's width. -/

def int64ToWire (i : Int) : Nat :=
  (i % (2 ^ 64)).toNat

def wireToInt64 (n : Nat) : Int :=
  if n % 2 ^ 64 < 2 ^ 63 then ((n % 2 ^ 64 : Nat) : Int)
  else ((n % 2 ^ 64 : Nat) : Int) - 2 ^ 64

def wireToInt32 (n : Nat) : Int :=
  if n % 2 ^ 32 < 2 ^ 31 then ((n % 2 ^ 32 : Nat) : Int)
  else ((n % 2 ^ 32 : Nat) : Int) - 2 ^ 32

theorem wireToInt64_int64ToWire (i : Int) (hlo : -(2 ^ 63) ≤ i) (hhi : i < 2 ^ 63) :
    wireToInt64 (int64ToWire i) = i := by
  unfold int64ToWire wireToInt64
  omega

theorem wireToInt32_int64ToWire (i : Int) (hlo : -(2 ^ 31) ≤ i) (hhi : i < 2 ^ 31) :
    wireToInt32 (int64ToWire i) = i := by
  unfold int64ToWire wireToInt32
  omega

/-! ### The `OrderResult` data model (`pb/demo.proto`)

String fields are Go strings, i.e. byte sequences.  Message-typed fields
are Go pointers (`nil` possible), modelled with `Option`.  `units` is an
`int64`; `nanos` and `quantity` are `int32`. -/

structure Money where
  currencyCode : List Nat
  units : Int
  nanos : Int
deriving DecidableEq

structure Address where
  streetAddress : List Nat
  city : List Nat
  state : List Nat
  country : List Nat
  zipCode : List Nat
deriving DecidableEq

structure CartItem where
  productId : List Nat
  quantity : Int
deriving DecidableEq

structure OrderItem where
  item : Option CartItem
  cost : Option Money
deriving DecidableEq

structure OrderResult where
  orderId : List Nat
  shippingTrackingId : List Nat
  shippingCost : Option Money
  shippingAddress : Option Address
  items : List OrderItem
deriving DecidableEq

def defaultMoney : Money := ⟨[], 0, 0⟩

def defaultAddress : Address := ⟨[], [], [], [], []⟩

def defaultCartItem : CartItem := ⟨[], 0⟩

def defaultOrderItem : OrderItem := ⟨none, none⟩

def defaultOrderResult : OrderResult := ⟨[], [], none, none, []⟩

/-- Go `int64` bounds for `units`, `int32` for `nanos`: guaranteed by the
static types of the generated Go structs. -/
def wfMoney (m : Money) : Bool :=
  decide (-(2 ^ 63) ≤ m.units) && decide (m.units < 2 ^ 63) &&
    decide (-(2 ^ 31) ≤ m.nanos) && decide (m.nanos < 2 ^ 31)

def wfCartItem (c : CartItem) : Bool :=
  decide (-(2 ^ 31) ≤ c.quantity) && decide (c.quantity < 2 ^ 31)

def wfOrderItem (it : OrderItem) : Bool :=
  (match it.item with
   | some c => wfCartItem c
   | none => true) &&
  (match it.cost with
   | some m => wfMoney m
   | none => true)

def wfOrderResult (o : OrderResult) : Bool :=
  (match o.shippingCost with
   | some m => wfMoney m
   | none => true) &&
  o.items.all wfOrderItem

/-! ### Binary encoding (`proto.Marshal` specialised to this schema)

proto3 omits fields holding their default value; fields are written in
field-number order.  `encodeBinary` below is the composition used at
`kafka_order_event_publisher.go:58`. -/

def moneyFields (m : Money) : List (Nat × FieldVal) :=
  (if m.currencyCode = [] then [] else [(1, FieldVal.blob m.currencyCode)]) ++
    (if m.units = 0 then [] else [(2, FieldVal.vint (int64ToWire m.units))]) ++
    (if m.nanos = 0 then [] else [(3, FieldVal.vint (int64ToWire m.nanos))])

def encodeMoney (m : Money) : List Nat :=
  encodeFields (moneyFields m)

def addressFields (a : Address) : List (Nat × FieldVal) :=
  (if a.streetAddress = [] then [] else [(1, FieldVal.blob a.streetAddress)]) ++
    (if a.city = [] then [] else [(2, FieldVal.blob a.city)]) ++
    (if a.state = [] then [] else [(3, FieldVal.blob a.state)]) ++
    (if a.country = [] then [] else [(4, FieldVal.blob a.country)]) ++
    (if a.zipCode = [] then [] else [(5, FieldVal.blob a.zipCode)])

def encodeAddress (a : Address) : List Nat :=
  encodeFields (addressFields a)

def cartItemFields (c : CartItem) : List (Nat × FieldVal) :=
  (if c.productId = [] then [] else [(1, FieldVal.blob c.productId)]) ++
    (if c.quantity = 0 then [] else [(2, FieldVal.vint (int64ToWire c.quantity))])

def encodeCartItem (c : CartItem) : List Nat :=
  encodeFields (cartItemFields c)

def orderItemFields (it : OrderItem) : List (Nat × FieldVal) :=
  (match it.item with
   | none => []
   | some c => [(1, FieldVal.blob (encodeCartItem c))]) ++
    (match it.cost with
     | none => []
     | some m => [(2, FieldVal.blob (encodeMoney m))])

def encodeOrderItem (it : OrderItem) : List Nat :=
  encodeFields (orderItemFields it)

def orderResultFields (o : OrderResult) : List (Nat × FieldVal) :=
  (if o.orderId = [] then [] else [(1, FieldVal.blob o.orderId)]) ++
    (if o.shippingTrackingId = [] then [] else [(2, FieldVal.blob o.shippingTrackingId)]) ++
    (match o.shippingCost with
     | none => []
     | some m => [(3, FieldVal.blob (encodeMoney m))]) ++
    (match o.shippingAddress with
     | none => []
     | some a => [(4, FieldVal.blob (encodeAddress a))]) ++
    o.items.map (fun it => (5, FieldVal.blob (encodeOrderItem it)))

def encodeBinary (o : OrderResult) : List Nat :=
  encodeFields (orderResultFields o)

/-! ### Binary decoding (`proto.Unmarshal` specialised to this schema)

Decoding folds the parsed field records over the default message,
last-value-wins for scalar fields and appending for the repeated `items`
field; unknown fields and wrong-wire-type fields are skipped. -/

def applyMoneyField (acc : Money) : Nat × FieldVal → Money
  | (1, FieldVal.blob bs) => { acc with currencyCode := bs }
  | (2, FieldVal.vint v) => { acc with units := wireToInt64 v }
  | (3, FieldVal.vint v) => { acc with nanos := wireToInt32 v }
  | _ => acc

def decodeMoney (bytes : List Nat) : Option Money :=
  (parseFields bytes).map (List.foldl applyMoneyField defaultMoney)

def applyAddressField (acc : Address) : Nat × FieldVal → Address
  | (1, FieldVal.blob bs) => { acc with streetAddress := bs }
  | (2, FieldVal.blob bs) => { acc with city := bs }
  | (3, FieldVal.blob bs) => { acc with state := bs }
  | (4, FieldVal.blob bs) => { acc with country := bs }
  | (5, FieldVal.blob bs) => { acc with zipCode := bs }
  | _ => acc

def decodeAddress (bytes : List Nat) : Option Address :=
  (parseFields bytes).map (List.foldl applyAddressField defaultAddress)

def applyCartItemField (acc : CartItem) : Nat × FieldVal → CartItem
  | (1, FieldVal.blob bs) => { acc with productId := bs }
  | (2, FieldVal.vint v) => { acc with quantity := wireToInt32 v }
  | _ => acc

def decodeCartItem (bytes : List Nat) : Option CartItem :=
  (parseFields bytes).map (List.foldl applyCartItemField defaultCartItem)

def applyOrderItemField (acc : OrderItem) : Nat × FieldVal → Option OrderItem
  | (1, FieldVal.blob bs) => (decodeCartItem bs).map (fun c => { acc with item := some c })
  | (2, FieldVal.blob bs) => (decodeMoney bs).map (fun m => { acc with cost := some m })
  | _ => some acc

def applyOrderItemFields : OrderItem → List (Nat × FieldVal) → Option OrderItem
  | acc, [] => some acc
  | acc, f :: fs =>
    match applyOrderItemField acc f with
    | some acc2 => applyOrderItemFields acc2 fs
    | none => none

def decodeOrderItem (bytes : List Nat) : Option OrderItem :=
  (parseFields bytes).bind (applyOrderItemFields defaultOrderItem)

def applyOrderResultField (acc : OrderResult) : Nat × FieldVal → Option OrderResult
  | (1, FieldVal.blob bs) => some { acc with orderId := bs }
  | (2, FieldVal.blob bs) => some { acc with shippingTrackingId := bs }
  | (3, FieldVal.blob bs) => (decodeMoney bs).map (fun m => { acc with shippingCost := some m })
  | (4, FieldVal.blob bs) =>
      (decodeAddress bs).map (fun a => { acc with shippingAddress := some a })
  | (5, FieldVal.blob bs) =>
      (decodeOrderItem bs).map (fun it => { acc with items := acc.items ++ [it] })
  | _ => some acc

def applyOrderResultFields : OrderResult → List (Nat × FieldVal) → Option OrderResult
  | acc, [] => some acc
  | acc, f :: fs =>
    match applyOrderResultField acc f with
    | some acc2 => applyOrderResultFields acc2 fs
    | none => none

def decodeBinary (bytes : List Nat) : Option OrderResult :=
  (parseFields bytes).bind (applyOrderResultFields defaultOrderResult)

/-! ### Binary round trip, message by message -/

theorem decodeMoney_encodeMoney (m : Money) (h : wfMoney m = true) :
    decodeMoney (encodeMoney m) = some m := by
  simp only [wfMoney, Bool.and_eq_true, decide_eq_true_eq] at h
  obtain ⟨⟨⟨h1, h2⟩, h3⟩, h4⟩ := h
  obtain ⟨cc, u, n⟩ := m
  rw [decodeMoney, encodeMoney, parseFields_encodeFields]
  simp only [Option.map_some']
  by_cases hc : cc = ([] : List Nat) <;>
    by_cases hu : u = (0 : Int) <;>
      by_cases hn : n = (0 : Int) <;>
        simp [moneyFields, hc, hu, hn, applyMoneyField, defaultMoney,
          wireToInt64_int64ToWire u h1 h2, wireToInt32_int64ToWire n h3 h4]

theorem decodeAddress_encodeAddress (a : Address) :
    decodeAddress (encodeAddress a) = some a := by
  obtain ⟨s1, s2, s3, s4, s5⟩ := a
  rw [decodeAddress, encodeAddress, parseFields_encodeFields]
  simp only [Option.map_some']
  by_cases c1 : s1 = ([] : List Nat) <;>
    by_cases c2 : s2 = ([] : List Nat) <;>
      by_cases c3 : s3 = ([] : List Nat) <;>
        by_cases c4 : s4 = ([] : List Nat) <;>
          by_cases c5 : s5 = ([] : List Nat) <;>
            simp [addressFields, c1, c2, c3, c4, c5, applyAddressField, defaultAddress]

theorem decodeCartItem_encodeCartItem (c : CartItem) (h : wfCartItem c = true) :
    decodeCartItem (encodeCartItem c) = some c := by
  simp only [wfCartItem, Bool.and_eq_true, decide_eq_true_eq] at h
  obtain ⟨h1, h2⟩ := h
  obtain ⟨pid, q⟩ := c
  rw [decodeCartItem, encodeCartItem, parseFields_encodeFields]
  simp only [Option.map_some']
  by_cases hp : pid = ([] : List Nat) <;>
    by_cases hq : q = (0 : Int) <;>
      simp [cartItemFields, hp, hq, applyCartItemField, defaultCartItem,
        wireToInt32_int64ToWire q h1 h2]

theorem decodeOrderItem_encodeOrderItem (it : OrderItem) (h : wfOrderItem it = true) :
    decodeOrderItem (encodeOrderItem it) = some it := by
  simp only [wfOrderItem, Bool.and_eq_true] at h
  obtain ⟨hitem, hcost⟩ := h
  obtain ⟨oi, oc⟩ := it
  rw [decodeOrderItem, encodeOrderItem, parseFields_encodeFields]
  simp only [Option.some_bind]
  cases oi with
  | none =>
    cases oc with
    | none => rfl
    | some m =>
      simp only at hcost
      simp [orderItemFields, applyOrderItemFields, applyOrderItemField,
        decodeMoney_encodeMoney m hcost, defaultOrderItem]
  | some c =>
    simp only at hitem
    cases oc with
    | none =>
      simp [orderItemFields, applyOrderItemFields, applyOrderItemField,
        decodeCartItem_encodeCartItem c hitem, defaultOrderItem]
    | some m =>
      simp only at hcost
      simp [orderItemFields, applyOrderItemFields, applyOrderItemField,
        decodeCartItem_encodeCartItem c hitem, decodeMoney_encodeMoney m hcost,
        defaultOrderItem]

theorem applyOrderResultFields_append (acc : OrderResult) (l1 l2 : List (Nat × FieldVal)) :
    applyOrderResultFields acc (l1 ++ l2) =
      (applyOrderResultFields acc l1).bind (fun a => applyOrderResultFields a l2) := by
  induction l1 generalizing acc with
  | nil => simp [applyOrderResultFields]
  | cons f fs ih =>
    simp only [List.cons_append, applyOrderResultFields]
    cases applyOrderResultField acc f with
    | none => rfl
    | some acc2 => exact ih acc2

theorem applyOrderResultFields_items (its : List OrderItem) :
    ∀ acc, its.all wfOrderItem = true →
      applyOrderResultFields acc (its.map (fun it => (5, FieldVal.blob (encodeOrderItem it)))) =
        some { acc with items := acc.items ++ its } := by
  induction its with
  | nil =>
    intro acc _
    simp [applyOrderResultFields]
  | cons it its ih =>
    intro acc hall
    simp only [List.all_cons, Bool.and_eq_true] at hall
    obtain ⟨h1, h2⟩ := hall
    have hstep : applyOrderResultField acc (5, FieldVal.blob (encodeOrderItem it)) =
        some { acc with items := acc.items ++ [it] } := by
      simp [applyOrderResultField, decodeOrderItem_encodeOrderItem it h1]
    simp only [List.map_cons, applyOrderResultFields, hstep]
    rw [ih _ h2]
    simp

theorem decodeBinary_encodeBinary (o : OrderResult) (h : wfOrderResult o = true) :
    decodeBinary (encodeBinary o) = some o := by
  simp only [wfOrderResult, Bool.and_eq_true] at h
  obtain ⟨hsc, hitems⟩ := h
  obtain ⟨oid, tid, sc, sa, its⟩ := o
  rw [decodeBinary, encodeBinary, parseFields_encodeFields]
  simp only [Option.some_bind, orderResultFields]
  rw [applyOrderResultFields_append]
  rw [applyOrderResultFields_append]
  rw [applyOrderResultFields_append]
  rw [applyOrderResultFields_append]
  by_cases h1 : oid = ([] : List Nat) <;>
    by_cases h2 : tid = ([] : List Nat) <;>
      cases sc with
      | none =>
        cases sa with
        | none =>
          simp [h1, h2, applyOrderResultFields, applyOrderResultField, defaultOrderResult,
            applyOrderResultFields_items its _ hitems]
        | some a =>
          simp [h1, h2, applyOrderResultFields, applyOrderResultField, defaultOrderResult,
            decodeAddress_encodeAddress a, applyOrderResultFields_items its _ hitems]
      | some m =>
        simp only at hsc
        cases sa with
        | none =>
          simp [h1, h2, applyOrderResultFields, applyOrderResultField, defaultOrderResult,
            decodeMoney_encodeMoney m hsc, applyOrderResultFields_items its _ hitems]
        | some a =>
          simp [h1, h2, applyOrderResultFields, applyOrderResultField, defaultOrderResult,
            decodeMoney_encodeMoney m hsc, decodeAddress_encodeAddress a,
            applyOrderResultFields_items its _ hitems]

/-- Concrete order value mirroring `TestOrderResultSerialization`
(`checkout_producer_pact_test.go`): ASCII bytes of the order id
"test-order-123" prefix shortened, USD money values 10.5 and 15.25. -/
def sampleOrder : OrderResult :=
  { orderId := [116, 101, 115, 116]
    shippingTrackingId := [116, 114, 107, 45, 49]
    shippingCost := some { currencyCode := [85, 83, 68], units := 10, nanos := 500000000 }
    shippingAddress := some
      { streetAddress := [52, 53, 54]
        city := [84, 101, 115, 116]
        state := [84, 67]
        country := [85, 83, 65]
        zipCode := [53, 52, 51, 50, 49] }
    items := [{ item := some { productId := [84, 80], quantity := 3 }
                cost := some { currencyCode := [85, 83, 68], units := 15, nanos := 250000000 } }] }

/-- C4: for every valid `OrderCompletedEvent` (an `OrderResult` whose
numeric fields respect their declared `int64`/`int32` widths, which the
generated Go struct types guarantee), decoding the binary protobuf
encoding yields the event back.  `encodeBinary` is a pure function of the
event, hence deterministic. -/
theorem C4_binary_roundtrip (o : OrderResult) (h : wfOrderResult o = true) :
    decodeBinary (encodeBinary o) = some o :=
  decodeBinary_encodeBinary o h

theorem C4_binary_roundtrip_witness :
    wfOrderResult sampleOrder = true ∧
      decodeBinary (encodeBinary sampleOrder) = some sampleOrder :=
  ⟨by decide, C4_binary_roundtrip sampleOrder (by decide)⟩

/-! ### Decimal rendering and parsing of integers

`intToDecBytes` models the decimal string `protojson` emits for an
`int64` field (`strconv.FormatInt`); `parseIntFromString` models the Go
helper of the same name in `checkout_message_provider_test.go`, whose
`json.Number(s).Int64()` is `strconv.ParseInt(s, 10, 64)`: optional sign,
decimal digits, 64-bit range check. -/

def natToDecAux : Nat → Nat → List Nat
  | 0, _ => []
  | fuel + 1, n => if n = 0 then [] else (n % 10 + 48) :: natToDecAux fuel (n / 10)

def natToDecBytes (n : Nat) : List Nat :=
  if n = 0 then [48] else (natToDecAux n n).reverse

def intToDecBytes (i : Int) : List Nat :=
  if i < 0 then 45 :: natToDecBytes i.natAbs else natToDecBytes i.toNat

def isDigitByte (b : Nat) : Bool :=
  decide (48 ≤ b) && decide (b ≤ 57)

def parseDecDigits (s : List Nat) : Option Nat :=
  if s = [] then none
  else if s.all isDigitByte then
    some (s.foldl (fun acc b => acc * 10 + (b - 48)) 0)
  else none

def parseIntFromString (s : List Nat) : Option Int :=
  match s with
  | [] => none
  | b :: rest =>
    if b = 45 then
      match parseDecDigits rest with
      | some n => if (n : Int) ≤ 2 ^ 63 then some (-(n : Int)) else none
      | none => none
    else if b = 43 then
      match parseDecDigits rest with
      | some n => if (n : Int) < 2 ^ 63 then some ((n : Int)) else none
      | none => none
    else
      match parseDecDigits s with
      | some n => if (n : Int) < 2 ^ 63 then some ((n : Int)) else none
      | none => none

theorem natToDecAux_all_digits (fuel : Nat) :
    ∀ n, (natToDecAux fuel n).all isDigitByte = true := by
  induction fuel with
  | zero => intro n; rfl
  | succ f ih =>
    intro n
    by_cases h : n = 0
    · simp [natToDecAux, h]
    · simp only [natToDecAux, if_neg h, List.all_cons, Bool.and_eq_true]
      constructor
      · simp [isDigitByte]
        omega
      · exact ih (n / 10)

theorem natToDecAux_ne_nil (fuel n : Nat) (h0 : n ≠ 0) (hf : fuel ≠ 0) :
    natToDecAux fuel n ≠ [] := by
  cases fuel with
  | zero => exact absurd rfl hf
  | succ f => simp [natToDecAux, h0]

theorem natToDecAux_foldl (fuel : Nat) :
    ∀ n acc, n ≤ fuel →
      (natToDecAux fuel n).reverse.foldl (fun a b => a * 10 + (b - 48)) acc =
        acc * 10 ^ (natToDecAux fuel n).length + n := by
  induction fuel with
  | zero =>
    intro n acc hn
    interval_cases n
    simp [natToDecAux]
  | succ f ih =>
    intro n acc hn
    by_cases h : n = 0
    · simp [natToDecAux, h]
    · have hdiv : n / 10 ≤ f := by
        have : n / 10 < n := Nat.div_lt_self (by omega) (by omega)
        omega
      simp only [natToDecAux, if_neg h, List.reverse_cons, List.foldl_append,
        List.length_cons, List.foldl_cons, List.foldl_nil]
      rw [ih (n / 10) acc hdiv]
      have hd : n % 10 + 48 - 48 = n % 10 := by omega
      rw [hd, pow_succ]
      have hmul : acc * (10 ^ (natToDecAux f (n / 10)).length * 10) =
          acc * 10 ^ (natToDecAux f (n / 10)).length * 10 := by ring
      rw [hmul]
      generalize acc * 10 ^ (natToDecAux f (n / 10)).length = m
      omega

theorem parseDecDigits_natToDecBytes (n : Nat) :
    parseDecDigits (natToDecBytes n) = some n := by
  by_cases h : n = 0
  · subst h
    decide
  · have hne : natToDecBytes n ≠ [] := by
      simp only [natToDecBytes, if_neg h]
      intro hc
      exact natToDecAux_ne_nil n n h h (by simpa using hc)
    have hall : (natToDecBytes n).all isDigitByte = true := by
      simp only [natToDecBytes, if_neg h, List.all_reverse]
      exact natToDecAux_all_digits n n
    simp only [parseDecDigits, if_neg hne, hall, if_pos rfl]
    simp only [natToDecBytes, if_neg h]
    rw [natToDecAux_foldl n n 0 (Nat.le_refl n)]
    simp

theorem natToDecBytes_head_digit (n : Nat) :
    ∀ b t, natToDecBytes n = b :: t → isDigitByte b = true := by
  intro b t h
  have hall : (natToDecBytes n).all isDigitByte = true := by
    by_cases h0 : n = 0
    · subst h0; decide
    · simp only [natToDecBytes, if_neg h0, List.all_reverse]
      exact natToDecAux_all_digits n n
  rw [h] at hall
  simp only [List.all_cons, Bool.and_eq_true] at hall
  exact hall.1

theorem natToDecBytes_ne_nil (n : Nat) : natToDecBytes n ≠ [] := by
  by_cases h : n = 0
  · subst h; decide
  · simp only [natToDecBytes, if_neg h]
    intro hc
    exact natToDecAux_ne_nil n n h h (by simpa using hc)

/-- The decimal string `protojson` renders for an in-range `int64` value
is parsed back to the same value by the Go `parseIntFromString` helper. -/
theorem parseIntFromString_intToDecBytes (i : Int)
    (hlo : -(2 ^ 63) ≤ i) (hhi : i < 2 ^ 63) :
    parseIntFromString (intToDecBytes i) = some i := by
  by_cases hneg : i < 0
  · simp only [intToDecBytes, if_pos hneg, parseIntFromString, eq_self_iff_true, if_true]
    rw [parseDecDigits_natToDecBytes]
    show (if ((i.natAbs : Int)) ≤ 2 ^ 63 then some (-(i.natAbs : Int)) else none) = some i
    have hb : ((i.natAbs : Int)) ≤ 2 ^ 63 := by omega
    rw [if_pos hb]
    congr 1
    omega
  · simp only [intToDecBytes, if_neg hneg]
    cases hbt : natToDecBytes i.toNat with
    | nil => exact absurd hbt (natToDecBytes_ne_nil _)
    | cons b t =>
      have hdig : isDigitByte b = true := natToDecBytes_head_digit _ b t hbt
      simp only [isDigitByte, Bool.and_eq_true, decide_eq_true_eq] at hdig
      simp only [parseIntFromString]
      have h45 : ¬ (b = 45) := by omega
      have h43 : ¬ (b = 43) := by omega
      rw [if_neg h45, if_neg h43, ← hbt, parseDecDigits_natToDecBytes]
      show (if ((i.toNat : Int)) < 2 ^ 63 then some ((i.toNat : Int)) else none) = some i
      have hb : ((i.toNat : Int)) < 2 ^ 63 := by omega
      rw [if_pos hb]
      congr 1
      omega

/-! ### The structured (contract/JSON) encoding

`convertOrderResultToConsumerFormat` in
`checkout_message_provider_test.go` marshals the order with
`protojson.MarshalOptions{EmitUnpopulated: true, UseProtoNames: false}`,
re-parses the JSON text into a generic `map[string]interface{}`, and then
patches the `units` fields with `fixProtobufSerializationIssues`.  The
model below builds the parsed tree directly: `protojson` renders `int64`
fields (`units`) as decimal strings, `int32` fields (`nanos`,
`quantity`) as numbers, unset message pointers as `null` (under
`EmitUnpopulated`), and field keys in their camelCase JSON names.  JSON
strings, like Go strings, are byte sequences; the key constants spell
the ASCII bytes of the camelCase field names. -/

inductive JVal where
  | jnull : JVal
  | jnum : Int → JVal
  | jstr : List Nat → JVal
  | jarr : List JVal → JVal
  | jobj : List (List Nat × JVal) → JVal

def keyOrderId : List Nat := [111, 114, 100, 101, 114, 73, 100]

def keyShippingTrackingId : List Nat :=
  [115, 104, 105, 112, 112, 105, 110, 103, 84, 114, 97, 99, 107, 105, 110, 103, 73, 100]

def keyShippingCost : List Nat := [115, 104, 105, 112, 112, 105, 110, 103, 67, 111, 115, 116]

def keyShippingAddress : List Nat :=
  [115, 104, 105, 112, 112, 105, 110, 103, 65, 100, 100, 114, 101, 115, 115]

def keyItems : List Nat := [105, 116, 101, 109, 115]

def keyCurrencyCode : List Nat := [99, 117, 114, 114, 101, 110, 99, 121, 67, 111, 100, 101]

def keyUnits : List Nat := [117, 110, 105, 116, 115]

def keyNanos : List Nat := [110, 97, 110, 111, 115]

def keyStreetAddress : List Nat := [115, 116, 114, 101, 101, 116, 65, 100, 100, 114, 101, 115, 115]

def keyCity : List Nat := [99, 105, 116, 121]

def keyState : List Nat := [115, 116, 97, 116, 101]

def keyCountry : List Nat := [99, 111, 117, 110, 116, 114, 121]

def keyZipCode : List Nat := [122, 105, 112, 67, 111, 100, 101]

def keyProductId : List Nat := [112, 114, 111, 100, 117, 99, 116, 73, 100]

def keyQuantity : List Nat := [113, 117, 97, 110, 116, 105, 116, 121]

def keyItem : List Nat := [105, 116, 101, 109]

def keyCost : List Nat := [99, 111, 115, 116]

def lookupKey : List (List Nat × JVal) → List Nat → Option JVal
  | [], _ => none
  | (k, v) :: rest, key => if k = key then some v else lookupKey rest key

def setKey : List (List Nat × JVal) → List Nat → JVal → List (List Nat × JVal)
  | [], _, _ => []
  | (k, v) :: rest, key, val =>
    if k = key then (k, val) :: setKey rest key val else (k, v) :: setKey rest key val

def moneyFieldsJson (m : Money) : List (List Nat × JVal) :=
  [(keyCurrencyCode, JVal.jstr m.currencyCode),
   (keyUnits, JVal.jstr (intToDecBytes m.units)),
   (keyNanos, JVal.jnum m.nanos)]

def moneyToJson (m : Money) : JVal :=
  JVal.jobj (moneyFieldsJson m)

def addressToJson (a : Address) : JVal :=
  JVal.jobj [(keyStreetAddress, JVal.jstr a.streetAddress),
             (keyCity, JVal.jstr a.city),
             (keyState, JVal.jstr a.state),
             (keyCountry, JVal.jstr a.country),
             (keyZipCode, JVal.jstr a.zipCode)]

def cartItemToJson (c : CartItem) : JVal :=
  JVal.jobj [(keyProductId, JVal.jstr c.productId),
             (keyQuantity, JVal.jnum c.quantity)]

def optJson (f : α → JVal) : Option α → JVal
  | none => JVal.jnull
  | some x => f x

def orderItemToJson (it : OrderItem) : JVal :=
  JVal.jobj [(keyItem, optJson cartItemToJson it.item),
             (keyCost, optJson moneyToJson it.cost)]

/-- The generic map produced by `protojson.Marshal` + `json.Unmarshal`
before the fix-up pass. -/
def orderResultToJsonMap (o : OrderResult) : List (List Nat × JVal) :=
  [(keyOrderId, JVal.jstr o.orderId),
   (keyShippingTrackingId, JVal.jstr o.shippingTrackingId),
   (keyShippingCost, optJson moneyToJson o.shippingCost),
   (keyShippingAddress, optJson addressToJson o.shippingAddress),
   (keyItems, JVal.jarr (o.items.map orderItemToJson))]

/-- Inner step of `fixProtobufSerializationIssues`: given the fields of a
cost object, convert a string `units` entry to an integer when it
parses. -/
def fixUnitsEntry (fs : List (List Nat × JVal)) : List (List Nat × JVal) :=
  match lookupKey fs keyUnits with
  | some (JVal.jstr s) =>
    match parseIntFromString s with
    | some v => setKey fs keyUnits (JVal.jnum v)
    | none => fs
  | _ => fs

def fixItemUnits (j : JVal) : JVal :=
  match j with
  | JVal.jobj itf =>
    match lookupKey itf keyCost with
    | some (JVal.jobj cf) => JVal.jobj (setKey itf keyCost (JVal.jobj (fixUnitsEntry cf)))
    | _ => JVal.jobj itf
  | j => j

def fixProtobufSerializationIssues (fs : List (List Nat × JVal)) : List (List Nat × JVal) :=
  let fs1 :=
    match lookupKey fs keyShippingCost with
    | some (JVal.jobj scf) => setKey fs keyShippingCost (JVal.jobj (fixUnitsEntry scf))
    | _ => fs
  match lookupKey fs1 keyItems with
  | some (JVal.jarr xs) => setKey fs1 keyItems (JVal.jarr (xs.map fixItemUnits))
  | _ => fs1

def convertOrderResultToConsumerFormat (o : OrderResult) : List (List Nat × JVal) :=
  fixProtobufSerializationIssues (orderResultToJsonMap o)

/-! ### The units-are-numeric property -/

/-- A money-shaped JSON value carries its `units` entry as a JSON number
(`null` stands for an absent money message, which has no `units`
field). -/
def moneyJsonUnitsNumeric : JVal → Bool
  | JVal.jobj fs =>
    match lookupKey fs keyUnits with
    | some (JVal.jnum _) => true
    | _ => false
  | JVal.jnull => true
  | _ => false

def itemCostUnitsNumeric : JVal → Bool
  | JVal.jobj fs =>
    match lookupKey fs keyCost with
    | some c => moneyJsonUnitsNumeric c
    | none => false
  | _ => false

def itemsUnitsNumeric : List JVal → Bool
  | [] => true
  | x :: xs => itemCostUnitsNumeric x && itemsUnitsNumeric xs

/-- Every `units` field of the structured encoding — the shipping cost's
and each line item's cost's — is numeric. -/
def allUnitsNumeric (fs : List (List Nat × JVal)) : Bool :=
  (match lookupKey fs keyShippingCost with
   | some sc => moneyJsonUnitsNumeric sc
   | none => false) &&
  (match lookupKey fs keyItems with
   | some (JVal.jarr xs) => itemsUnitsNumeric xs
   | _ => false)

theorem fixUnitsEntry_money (m : Money)
    (hlo : -(2 ^ 63) ≤ m.units) (hhi : m.units < 2 ^ 63) :
    fixUnitsEntry (moneyFieldsJson m) =
      [(keyCurrencyCode, JVal.jstr m.currencyCode),
       (keyUnits, JVal.jnum m.units),
       (keyNanos, JVal.jnum m.nanos)] := by
  have hp := parseIntFromString_intToDecBytes m.units hlo hhi
  show (match parseIntFromString (intToDecBytes m.units) with
        | some v => setKey (moneyFieldsJson m) keyUnits (JVal.jnum v)
        | none => moneyFieldsJson m) = _
  rw [hp]
  rfl

theorem moneyJsonUnitsNumeric_fixed (m : Money)
    (hlo : -(2 ^ 63) ≤ m.units) (hhi : m.units < 2 ^ 63) :
    moneyJsonUnitsNumeric (JVal.jobj (fixUnitsEntry (moneyFieldsJson m))) = true := by
  rw [fixUnitsEntry_money m hlo hhi]
  rfl

theorem itemCostUnitsNumeric_fixItem (it : OrderItem) (h : wfOrderItem it = true) :
    itemCostUnitsNumeric (fixItemUnits (orderItemToJson it)) = true := by
  simp only [wfOrderItem, Bool.and_eq_true] at h
  obtain ⟨hitem, hcost⟩ := h
  obtain ⟨oi, oc⟩ := it
  cases oc with
  | none => cases oi <;> rfl
  | some m =>
    have hm : wfMoney m = true := hcost
    simp only [wfMoney, Bool.and_eq_true, decide_eq_true_eq] at hm
    obtain ⟨⟨⟨h1, h2⟩, h3⟩, h4⟩ := hm
    cases oi with
    | none =>
      show moneyJsonUnitsNumeric (JVal.jobj (fixUnitsEntry (moneyFieldsJson m))) = true
      exact moneyJsonUnitsNumeric_fixed m h1 h2
    | some c =>
      show moneyJsonUnitsNumeric (JVal.jobj (fixUnitsEntry (moneyFieldsJson m))) = true
      exact moneyJsonUnitsNumeric_fixed m h1 h2

theorem itemsUnitsNumeric_map (its : List OrderItem) (h : its.all wfOrderItem = true) :
    itemsUnitsNumeric ((its.map orderItemToJson).map fixItemUnits) = true := by
  induction its with
  | nil => rfl
  | cons it its ih =>
    simp only [List.all_cons, Bool.and_eq_true] at h
    obtain ⟨h1, h2⟩ := h
    simp only [List.map_cons, itemsUnitsNumeric, Bool.and_eq_true]
    exact ⟨itemCostUnitsNumeric_fixItem it h1, ih h2⟩

/-- C1: for every order event (with its numeric fields within the Go
types' `int64`/`int32` ranges), the structured consumer-format encoding
emits every `units` field — the shipping cost's and each line item's
cost's — as a JSON number, never as a decimal string, even though the
underlying `protojson` marshaller renders `int64` fields as strings. -/
theorem C1_units_numeric (o : OrderResult) (h : wfOrderResult o = true) :
    allUnitsNumeric (convertOrderResultToConsumerFormat o) = true := by
  simp only [wfOrderResult, Bool.and_eq_true] at h
  obtain ⟨hsc, hitems⟩ := h
  obtain ⟨oid, tid, sc, sa, its⟩ := o
  cases sc with
  | none =>
    show (true && itemsUnitsNumeric ((its.map orderItemToJson).map fixItemUnits)) = true
    rw [Bool.true_and]
    exact itemsUnitsNumeric_map its hitems
  | some m =>
    have hm : wfMoney m = true := hsc
    simp only [wfMoney, Bool.and_eq_true, decide_eq_true_eq] at hm
    obtain ⟨⟨⟨h1, h2⟩, h3⟩, h4⟩ := hm
    show (moneyJsonUnitsNumeric (JVal.jobj (fixUnitsEntry (moneyFieldsJson m))) &&
        itemsUnitsNumeric ((its.map orderItemToJson).map fixItemUnits)) = true
    rw [moneyJsonUnitsNumeric_fixed m h1 h2, itemsUnitsNumeric_map its hitems]
    rfl

theorem C1_units_numeric_witness :
    wfOrderResult sampleOrder = true ∧
      allUnitsNumeric (convertOrderResultToConsumerFormat sampleOrder) = true :=
  ⟨by decide, C1_units_numeric sampleOrder (by decide)⟩

/-! ### The Kafka publisher adapter (`kafka_order_event_publisher.go`)

`PublishOrderCompleted` is embedded as a function of: whether the
producer handle is configured (`k.producer == nil` check), the marshal
seam (`proto.Marshal`, which returns bytes or an error), the outcome of
the two channel races (the enqueue `select` and the acknowledgment
`select` — which ready channel fires is decided by the runtime, captured
here as a schedule), and an explicit state holding the transport queue,
the number of executed enqueue selects, and the event the `order`
argument points to.  Tracing-span and log calls are fire-and-forget and
carry no data flow, so they are not part of the state. -/

inductive AckOutcome where
  | success (offset : Int)
  | producerError (err : List Nat)
  | ctxDone
deriving DecidableEq

structure Sched where
  acceptsEnqueue : Bool
  ackOutcome : AckOutcome
deriving DecidableEq

inductive GoError where
  | marshalFailed
  | queueCancelled
  | kafkaProducer (err : List Nat)
  | ackCancelled
deriving DecidableEq

/-- Whether `errors.Is(err, ctx.Err())` holds: the two cancellation
errors wrap the context's error, the others do not. -/
def GoError.wrapsContextErr : GoError → Bool
  | GoError.queueCancelled => true
  | GoError.ackCancelled => true
  | _ => false

structure AdapterState where
  queue : List (List Nat)
  sendAttempts : Nat
  order : OrderResult
deriving DecidableEq

def waitForAcknowledgment : AckOutcome → Option GoError
  | AckOutcome.success _ => none
  | AckOutcome.producerError e => some (GoError.kafkaProducer e)
  | AckOutcome.ctxDone => some GoError.ackCancelled

def publishOrderCompleted (producerPresent : Bool)
    (marshal : OrderResult → Option (List Nat)) (sched : Sched)
    (s : AdapterState) : Option GoError × AdapterState :=
  if producerPresent = false then
    (none, s)
  else
    match marshal s.order with
    | none => (some GoError.marshalFailed, s)
    | some message =>
      let s1 : AdapterState := { s with sendAttempts := s.sendAttempts + 1 }
      if sched.acceptsEnqueue then
        (waitForAcknowledgment sched.ackOutcome, { s1 with queue := s1.queue ++ [message] })
      else
        (some GoError.queueCancelled, s1)

/-- The no-op adapter: returns `nil` and touches nothing. -/
def noOpPublishOrderCompleted (s : AdapterState) : Option GoError × AdapterState :=
  (none, s)

/-- The marshal seam instantiated with the real binary codec. -/
def protoMarshal (o : OrderResult) : Option (List Nat) :=
  some (encodeBinary o)

/-- C2: whenever the enqueue select resolves to the cancelled context —
the context was cancelled before the transport accepted the message —
the adapter returns the queue-cancellation error (which wraps the
context's error, the Cancelled publish outcome) and nothing is
enqueued to the transport. -/
theorem C2_cancelled_before_accept (marshal : OrderResult → Option (List Nat))
    (sched : Sched) (s : AdapterState) (msg : List Nat)
    (hm : marshal s.order = some msg) (hc : sched.acceptsEnqueue = false) :
    (publishOrderCompleted true marshal sched s).1 = some GoError.queueCancelled ∧
      GoError.wrapsContextErr GoError.queueCancelled = true ∧
      (publishOrderCompleted true marshal sched s).2.queue = s.queue := by
  refine ⟨?_, rfl, ?_⟩ <;> simp [publishOrderCompleted, hm, hc]

theorem C2_cancelled_before_accept_witness :
    (publishOrderCompleted true protoMarshal ⟨false, AckOutcome.success 0⟩
        ⟨[], 0, sampleOrder⟩).1 = some GoError.queueCancelled ∧
      GoError.wrapsContextErr GoError.queueCancelled = true ∧
      (publishOrderCompleted true protoMarshal ⟨false, AckOutcome.success 0⟩
        ⟨[], 0, sampleOrder⟩).2.queue = ([] : List (List Nat)) :=
  C2_cancelled_before_accept protoMarshal ⟨false, AckOutcome.success 0⟩
    ⟨[], 0, sampleOrder⟩ (encodeBinary sampleOrder) rfl rfl

/-- C3: with the producer handle unconfigured the adapter returns `nil`
immediately and leaves the transport untouched, and the no-op adapter
returns `nil` unconditionally with no transport interaction. -/
theorem C3_no_producer_ok (marshal : OrderResult → Option (List Nat))
    (sched : Sched) (s s2 : AdapterState) :
    publishOrderCompleted false marshal sched s = (none, s) ∧
      noOpPublishOrderCompleted s2 = (none, s2) :=
  ⟨rfl, rfl⟩

/-- C5: when the transport accepts the message and then reports an
error, the adapter returns the kafka-producer error carrying the
transport's reported error — not `nil` and not a cancellation. -/
theorem C5_transport_error_rejected (marshal : OrderResult → Option (List Nat))
    (sched : Sched) (s : AdapterState) (msg e : List Nat)
    (hm : marshal s.order = some msg) (ha : sched.acceptsEnqueue = true)
    (he : sched.ackOutcome = AckOutcome.producerError e) :
    (publishOrderCompleted true marshal sched s).1 = some (GoError.kafkaProducer e) ∧
      some (GoError.kafkaProducer e) ≠ (none : Option GoError) ∧
      GoError.wrapsContextErr (GoError.kafkaProducer e) = false := by
  refine ⟨?_, by simp, rfl⟩
  simp [publishOrderCompleted, hm, ha, he, waitForAcknowledgment]

theorem C5_transport_error_rejected_witness :
    (publishOrderCompleted true protoMarshal ⟨true, AckOutcome.producerError [98]⟩
        ⟨[], 0, sampleOrder⟩).1 = some (GoError.kafkaProducer [98]) ∧
      some (GoError.kafkaProducer [98]) ≠ (none : Option GoError) ∧
      GoError.wrapsContextErr (GoError.kafkaProducer [98]) = false :=
  C5_transport_error_rejected protoMarshal ⟨true, AckOutcome.producerError [98]⟩
    ⟨[], 0, sampleOrder⟩ (encodeBinary sampleOrder) [98] rfl rfl rfl

/-- C6: cancellation while waiting for the acknowledgment yields the
ack-cancellation error, which wraps the context's error (the Cancelled
publish outcome) and is a constructor distinct from
every transport-rejection error. -/
theorem C6_cancelled_awaiting_ack (marshal : OrderResult → Option (List Nat))
    (sched : Sched) (s : AdapterState) (msg : List Nat)
    (hm : marshal s.order = some msg) (ha : sched.acceptsEnqueue = true)
    (hd : sched.ackOutcome = AckOutcome.ctxDone) :
    (publishOrderCompleted true marshal sched s).1 = some GoError.ackCancelled ∧
      GoError.wrapsContextErr GoError.ackCancelled = true ∧
      (∀ e : List Nat, GoError.ackCancelled ≠ GoError.kafkaProducer e) := by
  refine ⟨?_, rfl, by intro e; simp⟩
  simp [publishOrderCompleted, hm, ha, hd, waitForAcknowledgment]

theorem C6_cancelled_awaiting_ack_witness :
    (publishOrderCompleted true protoMarshal ⟨true, AckOutcome.ctxDone⟩
        ⟨[], 0, sampleOrder⟩).1 = some GoError.ackCancelled ∧
      GoError.wrapsContextErr GoError.ackCancelled = true ∧
      (∀ e : List Nat, GoError.ackCancelled ≠ GoError.kafkaProducer e) :=
  C6_cancelled_awaiting_ack protoMarshal ⟨true, AckOutcome.ctxDone⟩
    ⟨[], 0, sampleOrder⟩ (encodeBinary sampleOrder) rfl rfl rfl

/-- C7 counterexample: a publish call with the producer handle
unconfigured returns `nil` (a success outcome) having performed zero
send attempts, refuting "exactly one send attempt per publish call". -/
theorem C7_zero_attempts_counterexample :
    (publishOrderCompleted false protoMarshal ⟨true, AckOutcome.success 0⟩
        ⟨[], 0, sampleOrder⟩).1 = none ∧
      (publishOrderCompleted false protoMarshal ⟨true, AckOutcome.success 0⟩
        ⟨[], 0, sampleOrder⟩).2.sendAttempts = 0 ∧
      (0 : Nat) ≠ 0 + 1 := by
  refine ⟨rfl, rfl, by omega⟩

/-- C7 (amended): every publish call performs at most one send attempt
and enqueues at most one message, and performs exactly one send attempt
whenever the producer handle is configured and binary encoding succeeds
(there is no internal retry on any outcome). -/
theorem C7_at_most_one_send (producerPresent : Bool)
    (marshal : OrderResult → Option (List Nat)) (sched : Sched) (s : AdapterState) :
    (publishOrderCompleted producerPresent marshal sched s).2.sendAttempts ≤
        s.sendAttempts + 1 ∧
      (publishOrderCompleted producerPresent marshal sched s).2.queue.length ≤
        s.queue.length + 1 ∧
      (∀ msg, producerPresent = true → marshal s.order = some msg →
        (publishOrderCompleted producerPresent marshal sched s).2.sendAttempts =
          s.sendAttempts + 1) := by
  by_cases hp : producerPresent = false
  · simp [publishOrderCompleted, hp]
  · cases hm : marshal s.order with
    | none => simp [publishOrderCompleted, hp, hm]
    | some msg =>
      by_cases ha : sched.acceptsEnqueue <;>
        simp [publishOrderCompleted, hp, hm, ha]

theorem C7_at_most_one_send_witness :
    (publishOrderCompleted true protoMarshal ⟨false, AckOutcome.success 0⟩
        ⟨[], 0, sampleOrder⟩).2.sendAttempts = 0 + 1 :=
  (C7_at_most_one_send true protoMarshal ⟨false, AckOutcome.success 0⟩
    ⟨[], 0, sampleOrder⟩).2.2 (encodeBinary sampleOrder) rfl rfl

/-- C8: on every outcome, neither adapter changes any field of the event
the publish call received: the embedded statements only read `s.order`. -/
theorem C8_event_unchanged (producerPresent : Bool)
    (marshal : OrderResult → Option (List Nat)) (sched : Sched) (s s2 : AdapterState) :
    (publishOrderCompleted producerPresent marshal sched s).2.order = s.order ∧
      (noOpPublishOrderCompleted s2).2.order = s2.order := by
  refine ⟨?_, rfl⟩
  by_cases hp : producerPresent = false
  · simp [publishOrderCompleted, hp]
  · cases hm : marshal s.order with
    | none => simp [publishOrderCompleted, hp, hm]
    | some msg =>
      by_cases ha : sched.acceptsEnqueue <;>
        simp [publishOrderCompleted, hp, hm, ha]

/-- C10: when binary encoding fails, the adapter returns the marshal
error before any transport interaction: the queue and the attempt count
are untouched. -/
theorem C10_encode_failure_no_send (marshal : OrderResult → Option (List Nat))
    (sched : Sched) (s : AdapterState) (hm : marshal s.order = none) :
    (publishOrderCompleted true marshal sched s).1 = some GoError.marshalFailed ∧
      (publishOrderCompleted true marshal sched s).2.queue = s.queue ∧
      (publishOrderCompleted true marshal sched s).2.sendAttempts = s.sendAttempts := by
  simp [publishOrderCompleted, hm]

theorem C10_encode_failure_no_send_witness :
    (publishOrderCompleted true (fun _ => none) ⟨true, AckOutcome.success 0⟩
        ⟨[], 0, sampleOrder⟩).1 = some GoError.marshalFailed ∧
      (publishOrderCompleted true (fun _ => none) ⟨true, AckOutcome.success 0⟩
        ⟨[], 0, sampleOrder⟩).2.queue = ([] : List (List Nat)) ∧
      (publishOrderCompleted true (fun _ => none) ⟨true, AckOutcome.success 0⟩
        ⟨[], 0, sampleOrder⟩).2.sendAttempts = 0 :=
  C10_encode_failure_no_send (fun _ => none) ⟨true, AckOutcome.success 0⟩
    ⟨[], 0, sampleOrder⟩ rfl

/-! ### The consumer dispatcher (accounting service) -/

inductive DispatcherState where
  | idle
  | listening
  | processing
  | stopped
deriving DecidableEq

inductive ConsumerInput where
  | message (raw : List Nat)
  | cancel
deriving DecidableEq

structure ConsumerEnv where
  dbConfigured : Bool
  persistOk : OrderResult → Bool

structure ConsumerTrace where
  persisted : List OrderResult
  failures : Nat
  skipped : Nat
deriving DecidableEq

/-- Modelled from the spec: the accounting service's per-message step
(`Consumer.ProcessMessage`), whose implementation is not among the given
sources (only its README and contract tests are).  Spec §4.5: decode the
binary payload with the codec; on decode error log and discard; on
success persist the derived records transactionally (the oracle
`persistOk` abstracts `PersistError`); on persistence failure log and
discard; with the persistence backend unconfigured, log and skip
(degraded mode).  Every outcome returns control to the loop. -/
def processMessage (env : ConsumerEnv) (raw : List Nat) (tr : ConsumerTrace) : ConsumerTrace :=
  match decodeBinary raw with
  | none => { tr with failures := tr.failures + 1 }
  | some e =>
    if env.dbConfigured = false then { tr with skipped := tr.skipped + 1 }
    else if env.persistOk e then { tr with persisted := tr.persisted ++ [e] }
    else { tr with failures := tr.failures + 1 }

/-- Modelled from the spec: one iteration of the dispatcher loop
(`Consumer.StartListening`).  An input is either a received message or
the external shutdown signal (cancellation of the run context).  A
message enters `Processing` and always returns to `Listening`; only
cancellation moves to `Stopped`, which is absorbing. -/
def dispatcherStep (env : ConsumerEnv) :
    DispatcherState × ConsumerTrace → ConsumerInput → DispatcherState × ConsumerTrace
  | (DispatcherState.stopped, tr), _ => (DispatcherState.stopped, tr)
  | (_, tr), ConsumerInput.cancel => (DispatcherState.stopped, tr)
  | (_, tr), ConsumerInput.message raw => (DispatcherState.listening, processMessage env raw tr)

/-- Modelled from the spec: the dispatcher run over a finite input
sequence, starting in the steady `Listening` state with an empty
trace. -/
def dispatcherRun (env : ConsumerEnv) (inputs : List ConsumerInput) :
    DispatcherState × ConsumerTrace :=
  inputs.foldl (dispatcherStep env) (DispatcherState.listening, ⟨[], 0, 0⟩)

theorem dispatcherRun_from (env : ConsumerEnv) (inputs : List ConsumerInput) :
    ∀ st tr, ((inputs.foldl (dispatcherStep env) (st, tr)).1 = DispatcherState.stopped ↔
      (st = DispatcherState.stopped ∨ ConsumerInput.cancel ∈ inputs)) := by
  induction inputs with
  | nil =>
    intro st tr
    simp
  | cons i rest ih =>
    intro st tr
    cases i with
    | cancel => cases st <;> simp [List.foldl_cons, dispatcherStep, ih]
    | message raw => cases st <;> simp [List.foldl_cons, dispatcherStep, ih]

/-- C9: the dispatcher reaches `Stopped` exactly when the explicit
shutdown signal (run-context cancellation) occurs in its input sequence
— a message-level failure never stops it — and every message processed
from a non-stopped state returns the dispatcher to `Listening`
regardless of the outcome. -/
theorem C9_failures_never_stop_dispatcher (env : ConsumerEnv) (inputs : List ConsumerInput) :
    ((dispatcherRun env inputs).1 = DispatcherState.stopped ↔
        ConsumerInput.cancel ∈ inputs) ∧
      (∀ st tr raw, st ≠ DispatcherState.stopped →
        (dispatcherStep env (st, tr) (ConsumerInput.message raw)).1 =
          DispatcherState.listening) := by
  constructor
  · rw [dispatcherRun, dispatcherRun_from]
    simp
  · intro st tr raw hst
    cases st with
    | stopped => exact absurd rfl hst
    | idle => rfl
    | listening => rfl
    | processing => rfl

theorem C9_failures_never_stop_dispatcher_witness :
    (dispatcherStep ⟨true, fun _ => false⟩ (DispatcherState.listening, ⟨[], 0, 0⟩)
        (ConsumerInput.message [0])).1 = DispatcherState.listening :=
  (C9_failures_never_stop_dispatcher ⟨true, fun _ => false⟩ []).2
    DispatcherState.listening ⟨[], 0, 0⟩ [0] (by decide)

end ContractDemo
